import Mathlib

/-
Verification development for the `dashmap-cache` crate (src/lib.rs).

The crate implements a tagged memoization cache:

  struct DashmapCache { inner: DashMap<Vec<u8>, Vec<u8>>,
                        tags:  DashMap<String, DashSet<Vec<u8>>> }

with operations `insert` (private), `cached`, `async_cached`, `tokio_cached`,
`refresh_cache` and `invalidate`.  We embed the single-threaded semantics of
these operations shallowly: `DashMap` becomes an association list with unique
keys, `DashSet` becomes a duplicate-free list, and each `&self` method becomes
a pure function that returns the result together with the post-state of the
cache and the number of times the user closure was invoked.  A call that can
never return normally is modelled as `none`: the `.unwrap()` panic on an
abnormal join result in `tokio_cached`, and the shard deadlock in `invalidate`
when the tag is present (the `tags.get` read guard is still held when
`tags.remove` requests the write lock of the same shard).  Serialization
through `rmp_serde` is abstracted into a `Codec` record of fallible
encode/decode functions; the concrete MessagePack unsigned-integer encoding
that `rmp_serde` uses for integer arguments and results is modelled explicitly
as `msgpackEncodeNat` / `msgpackDecodeNat`.
-/

set_option autoImplicit false

namespace DashmapCacheModel

universe u v

/-- Association list lookup: the value bound to key `k`, modelling `DashMap::get`. -/
def alGet {κ : Type u} {ν : Type v} [DecidableEq κ] : List (κ × ν) → κ → Option ν
  | [], _ => none
  | (k', v) :: rest, k => if k' = k then some v else alGet rest k

/-- Association list removal of every binding of key `k`, modelling `DashMap::remove`. -/
def alRemove {κ : Type u} {ν : Type v} [DecidableEq κ] (m : List (κ × ν)) (k : κ) :
    List (κ × ν) :=
  m.filter (fun p => p.1 ≠ k)

/-- Association list insert-or-replace, modelling `DashMap::insert`. -/
def alInsert {κ : Type u} {ν : Type v} [DecidableEq κ] (m : List (κ × ν)) (k : κ) (v : ν) :
    List (κ × ν) :=
  (k, v) :: alRemove m k

/-- Association list in-place update of the binding of `k` when present,
modelling `DashMap::alter`. -/
def alAlter {κ : Type u} {ν : Type v} [DecidableEq κ] (m : List (κ × ν)) (k : κ) (f : ν → ν) :
    List (κ × ν) :=
  m.map (fun p => if p.1 = k then (p.1, f p.2) else p)

/-- Set insert on a duplicate-free list, modelling `DashSet::insert`. -/
def setInsert {α : Type u} [DecidableEq α] (s : List α) (a : α) : List α :=
  if a ∈ s then s else a :: s

/-- Model of the cache state: `inner` is the Entry Store mapping serialized
argument bytes to serialized value bytes, `tags` is the Tag Index mapping a tag
to the set of keys registered under it (fields of `struct DashmapCache`). -/
structure DashmapCache : Type where
  inner : List (List Nat × List Nat)
  tags : List (String × List (List Nat))
deriving DecidableEq

/-- Model of `DashmapCache::new()`: both maps empty. -/
def DashmapCache.new : DashmapCache := ⟨[], []⟩

/-- Model of `enum CacheError { Decode(..), Encode(..) }`; the payloads of the
`rmp_serde` errors are abstracted to strings. -/
inductive CacheError : Type where
  | Decode : String → CacheError
  | Encode : String → CacheError
deriving DecidableEq

/-- Model of the `rmp_serde` serialization boundary for one Rust type:
`enc` models `rmp_serde::to_vec` (may fail with an encode error message) and
`dec` models `rmp_serde::from_slice` (may fail with a decode error message). -/
structure Codec (α : Type u) : Type u where
  enc : α → Except String (List Nat)
  dec : List Nat → Except String α

/-- Model of the private `DashmapCache::insert(&self, tags, key, val)` body for
one tag of the loop: if the Tag Index has no set for `tag`, a fresh set holding
`key` is inserted; otherwise the existing set is altered to also hold `key`. -/
def registerTag (key : List Nat) (m : List (String × List (List Nat))) (tag : String) :
    List (String × List (List Nat)) :=
  if (alGet m tag).isSome = false then
    alInsert m tag (setInsert [] key)
  else
    alAlter m tag (fun s => setInsert s key)

/-- Model of `DashmapCache::insert`: registers `key` under every tag in `tags`,
then inserts `(key, val)` into the Entry Store, returning the new state and the
previous value bound to `key` (the return of `DashMap::insert`). -/
def DashmapCache.insert (c : DashmapCache) (tags : List String) (key val : List Nat) :
    DashmapCache × Option (List Nat) :=
  (⟨alInsert c.inner key val, tags.foldl (registerTag key) c.tags⟩, alGet c.inner key)

/-- Model of `DashmapCache::cached`: serialize the argument, probe the Entry
Store; on miss run the closure, serialize and insert the result; on hit decode
the stored bytes without running the closure.  The result is the returned
`Result<V, CacheError>`, the post-state of the cache, and the number of times
the closure was invoked. -/
def DashmapCache.cached {A : Type u} {V : Type v} (c : DashmapCache)
    (codA : Codec A) (codV : Codec V) (invalidate_keys : List String)
    (closure : A → V) (arg : A) : Except CacheError V × DashmapCache × Nat :=
  match codA.enc arg with
  | .error e => (.error (.Encode e), c, 0)
  | .ok arg_bytes =>
    match alGet c.inner arg_bytes with
    | none =>
      let val := closure arg
      match codV.enc val with
      | .error e => (.error (.Encode e), c, 1)
      | .ok val_bytes =>
        (.ok val, (c.insert invalidate_keys arg_bytes val_bytes).1, 1)
    | some vb =>
      match codV.dec vb with
      | .error e => (.error (.Decode e), c, 0)
      | .ok ret_val => (.ok ret_val, c, 0)

/-- Model of `DashmapCache::async_cached`: textually the same algorithm as
`cached`, with the awaited future modelled by the value it resolves to. -/
def DashmapCache.async_cached {A : Type u} {V : Type v} (c : DashmapCache)
    (codA : Codec A) (codV : Codec V) (invalidate_keys : List String)
    (closure : A → V) (arg : A) : Except CacheError V × DashmapCache × Nat :=
  match codA.enc arg with
  | .error e => (.error (.Encode e), c, 0)
  | .ok arg_bytes =>
    match alGet c.inner arg_bytes with
    | none =>
      let val := closure arg
      match codV.enc val with
      | .error e => (.error (.Encode e), c, 1)
      | .ok val_bytes =>
        (.ok val, (c.insert invalidate_keys arg_bytes val_bytes).1, 1)
    | some vb =>
      match codV.dec vb with
      | .error e => (.error (.Decode e), c, 0)
      | .ok ret_val => (.ok ret_val, c, 0)

/-- Model of `DashmapCache::tokio_cached`: the closure yields a join result
(`Except.error` when the spawned task was cancelled or panicked, mirroring
`JoinHandle`), and the source calls `.unwrap()` on it, which panics on the
error case; a panic is modelled as `none`.  All normal returns are `some`. -/
def DashmapCache.tokio_cached {A : Type u} {V : Type v} (c : DashmapCache)
    (codA : Codec A) (codV : Codec V) (invalidate_keys : List String)
    (closure : A → Except String V) (arg : A) :
    Option (Except CacheError V × DashmapCache × Nat) :=
  match codA.enc arg with
  | .error e => some (.error (.Encode e), c, 0)
  | .ok arg_bytes =>
    match alGet c.inner arg_bytes with
    | none =>
      match closure arg with
      | .error _ => none
      | .ok val =>
        match codV.enc val with
        | .error e => some (.error (.Encode e), c, 1)
        | .ok val_bytes =>
          some (.ok val, (c.insert invalidate_keys arg_bytes val_bytes).1, 1)
    | some vb =>
      match codV.dec vb with
      | .error e => some (.error (.Decode e), c, 0)
      | .ok ret_val => some (.ok ret_val, c, 0)

/-- Model of `DashmapCache::refresh_cache`: always runs the closure, serializes
its result and inserts it, ignoring any stored entry for the key. -/
def DashmapCache.refresh_cache {A : Type u} {V : Type v} (c : DashmapCache)
    (codA : Codec A) (codV : Codec V) (invalidate_keys : List String)
    (closure : A → V) (arg : A) : Except CacheError V × DashmapCache × Nat :=
  match codA.enc arg with
  | .error e => (.error (.Encode e), c, 0)
  | .ok arg_bytes =>
    let val := closure arg
    match codV.enc val with
    | .error e => (.error (.Encode e), c, 1)
    | .ok val_bytes =>
      (.ok val, (c.insert invalidate_keys arg_bytes val_bytes).1, 1)

/-- Model of `DashmapCache::invalidate`.  The source binds
`let hashes = self.tags.get(tag)` and keeps that `Ref` read guard alive until
the final loop consumes it, so when the tag is present the intervening call
`self.tags.remove(tag)` requests the write lock of the shard of that same key
while the thread still holds its read guard on it; `DashMap::remove` deadlocks
whenever any reference into the map is held, so the call never returns, even
single-threaded.  The divergence is modelled as `none`; the tag-absent path is
a completed no-op, `some` of the unchanged state. -/
def DashmapCache.invalidate (c : DashmapCache) (tag : String) :
    Option DashmapCache :=
  match alGet c.tags tag with
  | none => some c
  | some _ => none

/-- Modelled from the spec: the external dependency `rmp_serde` (not part of
this repository) serializes unsigned integers in the minimal MessagePack
representation: positive fixint for values below `2^7`, else `0xcc`/`0xcd`/
`0xce`/`0xcf` followed by 1, 2, 4 or 8 big-endian bytes. -/
def msgpackEncodeNat (n : Nat) : List Nat :=
  if n < 128 then [n]
  else if n < 256 then [204, n]
  else if n < 65536 then [205, n / 256, n % 256]
  else if n < 4294967296 then
    [206, n / 16777216 % 256, n / 65536 % 256, n / 256 % 256, n % 256]
  else
    [207, n / 72057594037927936 % 256, n / 281474976710656 % 256,
      n / 1099511627776 % 256, n / 4294967296 % 256, n / 16777216 % 256,
      n / 65536 % 256, n / 256 % 256, n % 256]

/-- Modelled from the spec: the matching MessagePack unsigned-integer decoder
used by `rmp_serde::from_slice`; any byte string that is not one of the
unsigned-integer forms yields a decode error. -/
def msgpackDecodeNat : List Nat → Except String Nat
  | [b] => if b < 128 then .ok b else .error "invalid msgpack uint"
  | [c, b] => if c = 204 then .ok b else .error "invalid msgpack uint"
  | [c, b1, b0] =>
    if c = 205 then .ok (b1 * 256 + b0) else .error "invalid msgpack uint"
  | [c, b3, b2, b1, b0] =>
    if c = 206 then .ok (b3 * 16777216 + b2 * 65536 + b1 * 256 + b0)
    else .error "invalid msgpack uint"
  | [c, b7, b6, b5, b4, b3, b2, b1, b0] =>
    if c = 207 then
      .ok (b7 * 72057594037927936 + b6 * 281474976710656 + b5 * 1099511627776 +
        b4 * 4294967296 + b3 * 16777216 + b2 * 65536 + b1 * 256 + b0)
    else .error "invalid msgpack uint"
  | _ => .error "invalid msgpack uint"

/-- Codec for natural-number arguments and results through the modelled
MessagePack encoding; encoding a `Nat` never fails, matching `rmp_serde` on
integer types. -/
def natCodec : Codec Nat where
  enc := fun n => .ok (msgpackEncodeNat n)
  dec := msgpackDecodeNat

section AssocLemmas

variable {κ : Type u} {ν : Type v} [DecidableEq κ]

/-- Unfolding equation for `alGet` on a cons cell. -/
theorem alGet_cons (a : κ) (b : ν) (rest : List (κ × ν)) (k : κ) :
    alGet ((a, b) :: rest) k = if a = k then some b else alGet rest k := rfl

/-- Unfolding equation for `alRemove` on a cons cell. -/
theorem alRemove_cons (a : κ) (b : ν) (rest : List (κ × ν)) (k : κ) :
    alRemove ((a, b) :: rest) k =
      if a = k then alRemove rest k else (a, b) :: alRemove rest k := by
  by_cases h : a = k <;> simp [alRemove, List.filter_cons, h]

/-- Unfolding equation for `alAlter` on a cons cell. -/
theorem alAlter_cons (a : κ) (b : ν) (rest : List (κ × ν)) (k : κ) (f : ν → ν) :
    alAlter ((a, b) :: rest) k f =
      (if a = k then (a, f b) else (a, b)) :: alAlter rest k f := by
  by_cases h : a = k <;> simp [alAlter, h]

/-- Looking up the key just removed yields nothing. -/
theorem alGet_alRemove_self (m : List (κ × ν)) (k : κ) : alGet (alRemove m k) k = none := by
  induction m with
  | nil => rfl
  | cons p rest ih =>
    obtain ⟨a, b⟩ := p
    rw [alRemove_cons]
    by_cases h : a = k
    · rw [if_pos h]; exact ih
    · rw [if_neg h, alGet_cons, if_neg h]; exact ih

/-- Removing one key leaves lookups of any other key unchanged. -/
theorem alGet_alRemove_ne {k' k : κ} (m : List (κ × ν)) (h : k' ≠ k) :
    alGet (alRemove m k) k' = alGet m k' := by
  induction m with
  | nil => rfl
  | cons p rest ih =>
    obtain ⟨a, b⟩ := p
    rw [alRemove_cons]
    by_cases hp : a = k
    · rw [if_pos hp]
      have hak' : ¬a = k' := fun hc => h ((hp.symm.trans hc).symm)
      rw [alGet_cons, if_neg hak']
      exact ih
    · rw [if_neg hp, alGet_cons, alGet_cons]
      by_cases hk' : a = k'
      · rw [if_pos hk', if_pos hk']
      · rw [if_neg hk', if_neg hk']
        exact ih

/-- Looking up the key just inserted yields the inserted value. -/
theorem alGet_alInsert_self (m : List (κ × ν)) (k : κ) (v : ν) :
    alGet (alInsert m k v) k = some v := by
  rw [alInsert, alGet_cons, if_pos rfl]

/-- Inserting one key leaves lookups of any other key unchanged. -/
theorem alGet_alInsert_ne {k' k : κ} (m : List (κ × ν)) (v : ν) (h : k' ≠ k) :
    alGet (alInsert m k v) k' = alGet m k' := by
  have hne : ¬k = k' := fun hc => h hc.symm
  rw [alInsert, alGet_cons, if_neg hne]
  exact alGet_alRemove_ne m h

/-- Altering a key rewrites exactly its bound value. -/
theorem alGet_alAlter_self (m : List (κ × ν)) (k : κ) (f : ν → ν) :
    alGet (alAlter m k f) k = Option.map f (alGet m k) := by
  induction m with
  | nil => rfl
  | cons p rest ih =>
    obtain ⟨a, b⟩ := p
    rw [alAlter_cons]
    by_cases h : a = k
    · rw [if_pos h, alGet_cons, if_pos h, alGet_cons, if_pos h]
      rfl
    · rw [if_neg h, alGet_cons, if_neg h, alGet_cons, if_neg h]
      exact ih

/-- Altering one key leaves lookups of any other key unchanged. -/
theorem alGet_alAlter_ne {k' k : κ} (m : List (κ × ν)) (f : ν → ν) (h : k' ≠ k) :
    alGet (alAlter m k f) k' = alGet m k' := by
  induction m with
  | nil => rfl
  | cons p rest ih =>
    obtain ⟨a, b⟩ := p
    rw [alAlter_cons]
    by_cases hp : a = k
    · rw [if_pos hp]
      have hak' : ¬a = k' := fun hc => h ((hp.symm.trans hc).symm)
      rw [alGet_cons, if_neg hak', alGet_cons, if_neg hak']
      exact ih
    · rw [if_neg hp, alGet_cons, alGet_cons]
      by_cases hk' : a = k'
      · rw [if_pos hk', if_pos hk']
      · rw [if_neg hk', if_neg hk']
        exact ih

end AssocLemmas

section SetLemmas

variable {α : Type u} [DecidableEq α]

/-- The element just inserted is a member of the set. -/
theorem mem_setInsert_self (s : List α) (a : α) : a ∈ setInsert s a := by
  by_cases h : a ∈ s <;> simp [setInsert, h]

/-- Set insertion keeps existing members. -/
theorem mem_setInsert_of_mem {s : List α} {a : α} (b : α) (h : a ∈ s) :
    a ∈ setInsert s b := by
  by_cases hb : b ∈ s <;> simp [setInsert, hb, h]

end SetLemmas

section FoldLemmas

variable {κ : Type u} {ν : Type v} [DecidableEq κ]

/-- A key absent from the map stays absent through any sequence of removals. -/
theorem foldl_alRemove_of_none (hs : List κ) :
    ∀ (m : List (κ × ν)) (k : κ), alGet m k = none →
      alGet (hs.foldl alRemove m) k = none := by
  induction hs with
  | nil => intro m k h; simpa using h
  | cons a t ih =>
    intro m k h
    simp only [List.foldl_cons]
    apply ih
    by_cases hak : k = a
    · subst hak; exact alGet_alRemove_self m k
    · rw [alGet_alRemove_ne m hak]; exact h

/-- Removing a list of keys that does not contain `k` leaves `k` bound as before. -/
theorem foldl_alRemove_not_mem (hs : List κ) :
    ∀ (m : List (κ × ν)) (k : κ), k ∉ hs →
      alGet (hs.foldl alRemove m) k = alGet m k := by
  induction hs with
  | nil => intro m k _; rfl
  | cons a t ih =>
    intro m k h
    have hka : k ≠ a := fun hc => h (hc ▸ List.mem_cons_self a t)
    have hkt : k ∉ t := fun hc => h (List.mem_cons_of_mem a hc)
    simp only [List.foldl_cons]
    rw [ih (alRemove m a) k hkt, alGet_alRemove_ne m hka]

/-- Every key of the removed list ends up unbound. -/
theorem foldl_alRemove_mem (hs : List κ) :
    ∀ (m : List (κ × ν)) (k : κ), k ∈ hs →
      alGet (hs.foldl alRemove m) k = none := by
  induction hs with
  | nil => intro m k h; cases h
  | cons a t ih =>
    intro m k h
    simp only [List.foldl_cons]
    by_cases hka : k = a
    · subst hka
      exact foldl_alRemove_of_none t (alRemove m k) k (alGet_alRemove_self m k)
    · exact ih (alRemove m a) k ((List.mem_cons.mp h).resolve_left hka)

end FoldLemmas

section TagLemmas

/-- Registering a key under a tag makes the key a member of the set now bound
to that tag. -/
theorem registerTag_mem_self (key : List Nat) (m : List (String × List (List Nat)))
    (tag : String) :
    ∃ s, alGet (registerTag key m tag) tag = some s ∧ key ∈ s := by
  unfold registerTag
  cases hm : alGet m tag with
  | none =>
    refine ⟨setInsert [] key, ?_, mem_setInsert_self [] key⟩
    simp [hm, alGet_alInsert_self]
  | some s0 =>
    refine ⟨setInsert s0 key, ?_, mem_setInsert_self s0 key⟩
    simp [hm, alGet_alAlter_self]

/-- Registering any key under any tag preserves established tag membership. -/
theorem registerTag_mem_preserved {t : String} {x : List Nat}
    (key : List Nat) (m : List (String × List (List Nat))) (tag : String)
    (h : ∃ s, alGet m t = some s ∧ x ∈ s) :
    ∃ s, alGet (registerTag key m tag) t = some s ∧ x ∈ s := by
  obtain ⟨s, hs, hx⟩ := h
  unfold registerTag
  by_cases htag : t = tag
  · subst htag
    refine ⟨setInsert s key, ?_, mem_setInsert_of_mem key hx⟩
    simp [hs, alGet_alAlter_self]
  · cases hm : alGet m tag with
    | none =>
      refine ⟨s, ?_, hx⟩
      simp [hm]
      rw [alGet_alInsert_ne m _ htag]
      exact hs
    | some s0 =>
      refine ⟨s, ?_, hx⟩
      simp [hm]
      rw [alGet_alAlter_ne m _ htag]
      exact hs

/-- Established tag membership survives a whole registration loop. -/
theorem foldl_registerTag_preserved {t : String} {x : List Nat}
    (key : List Nat) (tags : List String) :
    ∀ m, (∃ s, alGet m t = some s ∧ x ∈ s) →
      ∃ s, alGet (tags.foldl (registerTag key) m) t = some s ∧ x ∈ s := by
  induction tags with
  | nil => intro m h; simpa using h
  | cons a rest ih =>
    intro m h
    simp only [List.foldl_cons]
    exact ih (registerTag key m a) (registerTag_mem_preserved key m a h)

/-- After the registration loop of `DashmapCache::insert`, the key is a member
of the set of every tag in the list. -/
theorem foldl_registerTag_mem (key : List Nat) (tags : List String) :
    ∀ m (t : String), t ∈ tags →
      ∃ s, alGet (tags.foldl (registerTag key) m) t = some s ∧ key ∈ s := by
  induction tags with
  | nil => intro m t h; cases h
  | cons a rest ih =>
    intro m t h
    simp only [List.foldl_cons]
    by_cases hta : t = a
    · subst hta
      exact foldl_registerTag_preserved key rest (registerTag key m t)
        (registerTag_mem_self key m t)
    · exact ih (registerTag key m a) t ((List.mem_cons.mp h).resolve_left hta)

end TagLemmas

section MsgpackLemmas

/-- Unfolding equation of the decoder on one-byte input. -/
theorem msgpackDecodeNat_len1 (b : Nat) :
    msgpackDecodeNat [b] = if b < 128 then .ok b else .error "invalid msgpack uint" := rfl

/-- Unfolding equation of the decoder on two-byte input. -/
theorem msgpackDecodeNat_len2 (c b : Nat) :
    msgpackDecodeNat [c, b] =
      if c = 204 then .ok b else .error "invalid msgpack uint" := rfl

/-- Unfolding equation of the decoder on three-byte input. -/
theorem msgpackDecodeNat_len3 (c b1 b0 : Nat) :
    msgpackDecodeNat [c, b1, b0] =
      if c = 205 then .ok (b1 * 256 + b0) else .error "invalid msgpack uint" := rfl

/-- Unfolding equation of the decoder on five-byte input. -/
theorem msgpackDecodeNat_len5 (c b3 b2 b1 b0 : Nat) :
    msgpackDecodeNat [c, b3, b2, b1, b0] =
      if c = 206 then .ok (b3 * 16777216 + b2 * 65536 + b1 * 256 + b0)
      else .error "invalid msgpack uint" := rfl

/-- Unfolding equation of the decoder on nine-byte input. -/
theorem msgpackDecodeNat_len9 (c b7 b6 b5 b4 b3 b2 b1 b0 : Nat) :
    msgpackDecodeNat [c, b7, b6, b5, b4, b3, b2, b1, b0] =
      if c = 207 then
        .ok (b7 * 72057594037927936 + b6 * 281474976710656 + b5 * 1099511627776 +
          b4 * 4294967296 + b3 * 16777216 + b2 * 65536 + b1 * 256 + b0)
      else .error "invalid msgpack uint" := rfl

end MsgpackLemmas

/-- C9: for every value of the serializable result type modelled here (an
unsigned 64-bit integer, as `rmp_serde` encodes it for cache keys and values),
deserializing the bytes produced by serializing the value yields the value
back. -/
theorem rmp_encode_decode_roundtrip (n : Nat) (h : n < 18446744073709551616) :
    msgpackDecodeNat (msgpackEncodeNat n) = .ok n := by
  unfold msgpackEncodeNat
  by_cases h1 : n < 128
  · rw [if_pos h1, msgpackDecodeNat_len1, if_pos h1]
  · rw [if_neg h1]
    by_cases h2 : n < 256
    · rw [if_pos h2, msgpackDecodeNat_len2, if_pos rfl]
    · rw [if_neg h2]
      by_cases h3 : n < 65536
      · rw [if_pos h3, msgpackDecodeNat_len3, if_pos rfl]
        have hn : n / 256 * 256 + n % 256 = n := by omega
        rw [hn]
      · rw [if_neg h3]
        by_cases h4 : n < 4294967296
        · rw [if_pos h4, msgpackDecodeNat_len5, if_pos rfl]
          have hn : n / 16777216 % 256 * 16777216 + n / 65536 % 256 * 65536 +
              n / 256 % 256 * 256 + n % 256 = n := by omega
          rw [hn]
        · rw [if_neg h4, msgpackDecodeNat_len9, if_pos rfl]
          have hn : n / 72057594037927936 % 256 * 72057594037927936 +
              n / 281474976710656 % 256 * 281474976710656 +
              n / 1099511627776 % 256 * 1099511627776 +
              n / 4294967296 % 256 * 4294967296 + n / 16777216 % 256 * 16777216 +
              n / 65536 % 256 * 65536 + n / 256 % 256 * 256 + n % 256 = n := by omega
          rw [hn]

/-- Witness for C9 at the concrete value 66000. -/
theorem rmp_encode_decode_roundtrip_witness :
    66000 < 18446744073709551616 ∧
      msgpackDecodeNat (msgpackEncodeNat 66000) = .ok 66000 :=
  ⟨by decide, rmp_encode_decode_roundtrip 66000 (by decide)⟩

/-- C1: the first get-or-compute call (`cached` / `async_cached` /
`tokio_cached`) with an argument invokes the supplied computation exactly once
(invocation count 1) and returns its result; every subsequent get-or-compute
call against a cache state that still holds the entry (any state `d` before a
relevant invalidation) returns that same result with invocation count 0. -/
theorem cached_first_call_once_then_hits {A : Type u} {V : Type v}
    (c : DashmapCache) (codA : Codec A) (codV : Codec V) (keys : List String)
    (closure : A → V) (arg : A) (ab vb : List Nat)
    (hA : codA.enc arg = .ok ab)
    (hmiss : alGet c.inner ab = none)
    (hVe : codV.enc (closure arg) = .ok vb)
    (hVd : codV.dec vb = .ok (closure arg)) :
    c.cached codA codV keys closure arg =
      (.ok (closure arg), (c.insert keys ab vb).1, 1) ∧
    c.async_cached codA codV keys closure arg =
      (.ok (closure arg), (c.insert keys ab vb).1, 1) ∧
    c.tokio_cached codA codV keys (fun a => .ok (closure a)) arg =
      some (.ok (closure arg), (c.insert keys ab vb).1, 1) ∧
    alGet ((c.insert keys ab vb).1).inner ab = some vb ∧
    (∀ d : DashmapCache, alGet d.inner ab = some vb →
      d.cached codA codV keys closure arg = (.ok (closure arg), d, 0) ∧
      d.async_cached codA codV keys closure arg = (.ok (closure arg), d, 0) ∧
      d.tokio_cached codA codV keys (fun a => .ok (closure a)) arg =
        some (.ok (closure arg), d, 0)) := by
  refine ⟨?_, ?_, ?_, ?_, ?_⟩
  · simp [DashmapCache.cached, hA, hmiss, hVe]
  · simp [DashmapCache.async_cached, hA, hmiss, hVe]
  · simp [DashmapCache.tokio_cached, hA, hmiss, hVe]
  · exact alGet_alInsert_self c.inner ab vb
  · intro d hd
    exact ⟨by simp [DashmapCache.cached, hA, hd, hVd],
      by simp [DashmapCache.async_cached, hA, hd, hVd],
      by simp [DashmapCache.tokio_cached, hA, hd, hVd]⟩

/-- Witness for C1: caching the square function at 4 in the empty cache. -/
theorem cached_first_call_once_then_hits_witness :
    natCodec.enc 4 = .ok [4] ∧ alGet DashmapCache.new.inner [4] = none ∧
    DashmapCache.new.cached natCodec natCodec ["evens"] (fun n => n * n) 4 =
      (.ok 16, (DashmapCache.new.insert ["evens"] [4] [16]).1, 1) := by
  refine ⟨rfl, rfl, ?_⟩
  exact (cached_first_call_once_then_hits DashmapCache.new natCodec natCodec ["evens"]
    (fun n => n * n) 4 [4] [16] rfl rfl rfl rfl).1

/-- C4: `refresh_cache` on an argument whose key already has a stored entry
still runs the computation (invocation count 1), overwrites the stored entry
with the newly serialized result, returns the new value, and a subsequent
plain `cached` call with the same argument returns the refreshed value. -/
theorem refresh_cache_always_recomputes_and_overwrites {A : Type u} {V : Type v}
    (c : DashmapCache) (codA : Codec A) (codV : Codec V) (keys : List String)
    (closure : A → V) (arg : A) (ab oldv vb : List Nat)
    (hA : codA.enc arg = .ok ab)
    (_hold : alGet c.inner ab = some oldv)
    (hVe : codV.enc (closure arg) = .ok vb)
    (hVd : codV.dec vb = .ok (closure arg)) :
    c.refresh_cache codA codV keys closure arg =
      (.ok (closure arg), (c.insert keys ab vb).1, 1) ∧
    alGet ((c.insert keys ab vb).1).inner ab = some vb ∧
    (c.insert keys ab vb).1.cached codA codV keys closure arg =
      (.ok (closure arg), (c.insert keys ab vb).1, 0) := by
  refine ⟨?_, ?_, ?_⟩
  · simp [DashmapCache.refresh_cache, hA, hVe]
  · exact alGet_alInsert_self c.inner ab vb
  · have hhit : alGet ((c.insert keys ab vb).1).inner ab = some vb :=
      alGet_alInsert_self c.inner ab vb
    simp [DashmapCache.cached, hA, hhit, hVd]

/-- Witness for C4: refreshing the entry of 4 that holds the stale bytes
`[99]` replaces them with the encoding of 16. -/
theorem refresh_cache_always_recomputes_and_overwrites_witness :
    natCodec.enc 4 = .ok [4] ∧
    alGet (⟨[([4], [99])], []⟩ : DashmapCache).inner [4] = some [99] ∧
    (⟨[([4], [99])], []⟩ : DashmapCache).refresh_cache natCodec natCodec ["evens"]
      (fun n => n * n) 4 =
      (.ok 16, ((⟨[([4], [99])], []⟩ : DashmapCache).insert ["evens"] [4] [16]).1, 1) := by
  refine ⟨rfl, rfl, ?_⟩
  exact (refresh_cache_always_recomputes_and_overwrites (⟨[([4], [99])], []⟩ : DashmapCache)
    natCodec natCodec ["evens"] (fun n => n * n) 4 [4] [99] [16] rfl rfl rfl rfl).1

/-- C10: a `cached` call that hits an entry whose stored bytes do not decode
as the result type returns a `Decode` error with the computation never invoked
(count 0) and the cache state unchanged; the undecodable entry stays in place,
so any call against a state still holding those bytes fails the same way. -/
theorem cached_decode_error_preserves_state {A : Type u} {V : Type v}
    (c : DashmapCache) (codA : Codec A) (codV : Codec V) (keys : List String)
    (closure : A → V) (arg : A) (ab vb : List Nat) (e : String)
    (hA : codA.enc arg = .ok ab)
    (hhit : alGet c.inner ab = some vb)
    (hbad : codV.dec vb = .error e) :
    c.cached codA codV keys closure arg = (.error (.Decode e), c, 0) ∧
    alGet ((c.cached codA codV keys closure arg).2.1).inner ab = some vb ∧
    (∀ d : DashmapCache, alGet d.inner ab = some vb →
      d.cached codA codV keys closure arg = (.error (.Decode e), d, 0)) := by
  have hmain : ∀ d : DashmapCache, alGet d.inner ab = some vb →
      d.cached codA codV keys closure arg = (.error (.Decode e), d, 0) := by
    intro d hd
    simp [DashmapCache.cached, hA, hd, hbad]
  refine ⟨hmain c hhit, ?_, hmain⟩
  rw [hmain c hhit]
  exact hhit

/-- Witness for C10: the stored byte string `[200]` is not a MessagePack
unsigned integer, so the hit at key `[4]` fails with a `Decode` error and the
entry survives. -/
theorem cached_decode_error_preserves_state_witness :
    natCodec.enc 4 = .ok [4] ∧
    alGet (⟨[([4], [200])], []⟩ : DashmapCache).inner [4] = some [200] ∧
    natCodec.dec [200] = .error "invalid msgpack uint" ∧
    (⟨[([4], [200])], []⟩ : DashmapCache).cached natCodec natCodec ["evens"]
      (fun n => n * n) 4 =
      (.error (.Decode "invalid msgpack uint"), ⟨[([4], [200])], []⟩, 0) := by
  refine ⟨rfl, rfl, rfl, ?_⟩
  exact (cached_decode_error_preserves_state (⟨[([4], [200])], []⟩ : DashmapCache)
    natCodec natCodec ["evens"] (fun n => n * n) 4 [4] [200] "invalid msgpack uint"
    rfl rfl rfl).1

/-- C2 counterexample: in the model, a `tokio_cached` call whose awaited task
terminated abnormally (the join result is an error) does not return a typed
error result; it panics (`.unwrap()` on the join result, modelled as `none`),
shown here at a concrete input. -/
theorem tokio_cached_join_error_not_surfaced_cex :
    DashmapCache.new.tokio_cached natCodec natCodec []
      (fun _ => Except.error "task cancelled") 0 = none := rfl

/-- C2 amended: on a cache miss whose awaited task terminated abnormally
(cancelled or panicked), `tokio_cached` panics via `.unwrap()` on the join
result (modelled as `none`) instead of returning a typed `CacheError`; the
`CacheError` type only covers encode and decode failures. -/
theorem tokio_cached_join_error_panics {A : Type u} {V : Type v}
    (c : DashmapCache) (codA : Codec A) (codV : Codec V) (keys : List String)
    (closure : A → Except String V) (arg : A) (ab : List Nat) (je : String)
    (hA : codA.enc arg = .ok ab)
    (hmiss : alGet c.inner ab = none)
    (habn : closure arg = .error je) :
    c.tokio_cached codA codV keys closure arg = none := by
  simp [DashmapCache.tokio_cached, hA, hmiss, habn]

/-- Witness for C2 at the concrete cancelled task. -/
theorem tokio_cached_join_error_panics_witness :
    natCodec.enc 0 = .ok [0] ∧ alGet DashmapCache.new.inner [0] = none ∧
    DashmapCache.new.tokio_cached natCodec natCodec []
      (fun _ : Nat => (Except.error "task aborted" : Except String Nat)) 0 = none := by
  refine ⟨rfl, rfl, ?_⟩
  exact tokio_cached_join_error_panics DashmapCache.new natCodec natCodec []
    (fun _ : Nat => (Except.error "task aborted" : Except String Nat)) 0 [0]
    "task aborted" rfl rfl rfl

section InsertInvalidateLemmas

/-- The Tag Index after `DashmapCache::insert` is the registration fold. -/
theorem insert_tags (c : DashmapCache) (tags : List String) (key val : List Nat) :
    ((c.insert tags key val).1).tags = tags.foldl (registerTag key) c.tags := rfl

/-- The Entry Store after `DashmapCache::insert` is a single insertion. -/
theorem insert_inner (c : DashmapCache) (tags : List String) (key val : List Nat) :
    ((c.insert tags key val).1).inner = alInsert c.inner key val := rfl

/-- Invalidating a tag with no Tag Index entry completes and changes nothing. -/
theorem invalidate_of_tag_absent (c : DashmapCache) (tag : String)
    (h : alGet c.tags tag = none) : c.invalidate tag = some c := by
  unfold DashmapCache.invalidate
  rw [h]

/-- Invalidating a tag whose Tag Index entry exists never returns: the read
guard from `tags.get(tag)` is still held when `tags.remove(tag)` requests the
write lock of the same shard. -/
theorem invalidate_of_tag_present (c : DashmapCache) (tag : String)
    (s : List (List Nat)) (h : alGet c.tags tag = some s) :
    c.invalidate tag = none := by
  unfold DashmapCache.invalidate
  rw [h]

end InsertInvalidateLemmas

/-- C3: the post-state the claim describes is unreachable: after keys `k1`
and `k2` are registered under tag `T`, the Tag Index holds an entry for `T`,
so `invalidate(T)` holds the `tags.get(T)` read guard across `tags.remove(T)`
on the same shard and deadlocks instead of returning (modelled as `none`);
the claimed eviction, empty tag entry and repeatable no-op are never
observed. -/
theorem invalidate_tag_completeness_deadlock (c : DashmapCache) (T : String)
    (k1 v1 k2 v2 : List Nat) :
    ((c.insert [T] k1 v1).1.insert [T] k2 v2).1.invalidate T = none := by
  obtain ⟨s, hs, _⟩ :=
    foldl_registerTag_mem k2 [T] ((c.insert [T] k1 v1).1).tags T
      (List.mem_singleton.mpr rfl)
  rw [← insert_tags ((c.insert [T] k1 v1).1) [T] k2 v2] at hs
  exact invalidate_of_tag_present _ T s hs

/-- C8: the claimed eviction never happens: after one insertion registers the
key under both `T1` and `T2`, each of the two tags is present in the Tag
Index, so invalidating either one deadlocks (the `tags.get` read guard is
held across `tags.remove` on the same shard, modelled as `none`) and no
post-invalidation lookup ever takes place. -/
theorem multi_tag_eviction_deadlock (c : DashmapCache) (T1 T2 : String)
    (k v : List Nat) :
    (c.insert [T1, T2] k v).1.invalidate T1 = none ∧
    (c.insert [T1, T2] k v).1.invalidate T2 = none := by
  obtain ⟨s1, hs1, _⟩ := foldl_registerTag_mem k [T1, T2] c.tags T1 (by simp)
  obtain ⟨s2, hs2, _⟩ := foldl_registerTag_mem k [T1, T2] c.tags T2 (by simp)
  rw [← insert_tags c [T1, T2] k v] at hs1 hs2
  exact ⟨invalidate_of_tag_present _ T1 s1 hs1, invalidate_of_tag_present _ T2 s2 hs2⟩

/-- C5: the stale-TagSet state the claim describes is never reached: after a
key is registered under tags `T1` and `T2`, tag `T1` is present in the Tag
Index, so `invalidate(T1)` deadlocks (the `tags.get(T1)` read guard is held
when `tags.remove(T1)` requests the write lock of the same shard, modelled as
`none`); no caller ever observes the surviving `T2` membership, the Entry
Store miss, or the recomputation. -/
theorem invalidate_stale_tagset_deadlock (c : DashmapCache) (T1 T2 : String)
    (ab vb : List Nat) :
    (c.insert [T1, T2] ab vb).1.invalidate T1 = none := by
  obtain ⟨s1, hs1, _⟩ := foldl_registerTag_mem ab [T1, T2] c.tags T1 (by simp)
  rw [← insert_tags c [T1, T2] ab vb] at hs1
  exact invalidate_of_tag_present _ T1 s1 hs1

/-- C6: a get-or-compute call that misses performs exactly one insertion into
the Entry Store and registers the key under every tag of the list (no Tag
Index change for an empty list); a call that hits leaves the whole cache state
unchanged. -/
theorem cached_side_effects {A : Type u} {V : Type v}
    (c : DashmapCache) (codA : Codec A) (codV : Codec V) (keys : List String)
    (closure : A → V) (arg : A) (ab : List Nat)
    (hA : codA.enc arg = .ok ab) :
    ((∃ vb, alGet c.inner ab = some vb) →
      (c.cached codA codV keys closure arg).2.1 = c) ∧
    (∀ vb, alGet c.inner ab = none → codV.enc (closure arg) = .ok vb →
      ((c.cached codA codV keys closure arg).2.1).inner = alInsert c.inner ab vb ∧
      (∀ t ∈ keys, ∃ s,
        alGet (((c.cached codA codV keys closure arg).2.1).tags) t = some s ∧ ab ∈ s) ∧
      (keys = [] → ((c.cached codA codV keys closure arg).2.1).tags = c.tags)) := by
  constructor
  · rintro ⟨vb, hvb⟩
    cases hdec : codV.dec vb with
    | error e => simp [DashmapCache.cached, hA, hvb, hdec]
    | ok r => simp [DashmapCache.cached, hA, hvb, hdec]
  · intro vb hmiss henc
    have hc : (c.cached codA codV keys closure arg).2.1 = (c.insert keys ab vb).1 := by
      simp [DashmapCache.cached, hA, hmiss, henc]
    rw [hc]
    refine ⟨rfl, ?_, ?_⟩
    · intro t ht
      rw [insert_tags]
      exact foldl_registerTag_mem ab keys c.tags t ht
    · intro hk
      subst hk
      rfl

/-- Witness for C6: a miss of the square of 4 in the empty cache performs the
single insertion of the encoded pair. -/
theorem cached_side_effects_witness :
    natCodec.enc 4 = .ok [4] ∧
    ((DashmapCache.new.cached natCodec natCodec ["evens"] (fun n => n * n) 4).2.1).inner =
      alInsert DashmapCache.new.inner [4] [16] := by
  refine ⟨rfl, ?_⟩
  exact ((cached_side_effects DashmapCache.new natCodec natCodec ["evens"]
    (fun n => n * n) 4 [4] rfl).2 [16] rfl rfl).1

/-- C7: the claimed frame property is never observable when tag `B` has a
TagSet: on the concrete failing input the entry `[3] ↦ [9]` is registered
only under "odds" and is not in the TagSet of "evens", yet `invalidate`
of "evens" deadlocks (the `tags.get` read guard is held across `tags.remove`
on the same shard, modelled as `none`), so no state "after invalidate(B)"
exists in which the entry could be seen to survive. -/
theorem invalidate_other_tag_deadlock :
    alGet (⟨[([3], [9])], [("odds", [[3]]), ("evens", [[4]])]⟩ : DashmapCache).inner [3] =
      some [9] ∧
    alGet (⟨[([3], [9])], [("odds", [[3]]), ("evens", [[4]])]⟩ : DashmapCache).tags
      "evens" = some [[4]] ∧
    [3] ∉ [[4]] ∧
    (⟨[([3], [9])], [("odds", [[3]]), ("evens", [[4]])]⟩ : DashmapCache).invalidate
      "evens" = none := by
  refine ⟨rfl, by decide, by decide, ?_⟩
  exact invalidate_of_tag_present
    (⟨[([3], [9])], [("odds", [[3]]), ("evens", [[4]])]⟩ : DashmapCache)
    "evens" [[4]] (by decide)

end DashmapCacheModel
